import Mathlib

/-!
Verification of the auto-scaling worker pool (`pool/autoScaleWorkerPool.go`)
and the thread-safe map (`safeMap.go`).

Shallow embedding conventions:
* Go `int32` values are modelled as `Int`; all quantities handled by the pool
  (worker counts, queue lengths, percentages) stay far below `2^31`, so two's
  complement wrap-around is outside the modelled range.
* Go `float64` arithmetic in the scaling controller (lines 74-83) is modelled
  exactly: `f64round` computes IEEE-754 binary64 round-to-nearest-even by
  integer arithmetic, and `tickRatioF64`/`potentialAdditionalF64` chain the
  correctly-rounded division, the correctly-rounded multiplication and the
  truncating `int32` conversion exactly as the program does.  The exact
  rational pipeline (`tickRatio`/`potentialAdditional`) renders the
  spec/claim formula `⌊ratio * (maxWorkers - cur)⌋` with an exact ratio; the
  two pipelines differ on real inputs (claim C3's counterexample), because a
  float64 product such as `(15.0/22.0)*22.0 = 14.999999999999998` truncates
  below the exact value.
* Go `time.Duration` is an `Int` count of nanoseconds.
* The concurrent behaviour of `Start`, `readChan` and `worker` is embedded as
  a small-step transition relation (`Step`) over a pool state; each constructor
  is one atomic action of the Go code (an atomic load/add, a channel operation,
  a `select` arm firing).  `select` between several ready cases is
  nondeterministic choice, exactly as in Go.
-/

set_option maxRecDepth 8000

namespace SUtils

/-! ## Pool configuration: `NewAutoScaleWorkerPool` (lines 31-53) -/

/-- Immutable configuration fields of `AutoScaleWorkerPool`. -/
structure PoolConfig where
  minWorkers : Int
  maxWorkers : Int
  queueSize : Int
  scaleThreshold : Int
  /-- idle timeout in nanoseconds -/
  idleTimeout : Int
deriving DecidableEq

/-- Go constant `DefaultMinWorkers = 1`. -/
def DefaultMinWorkers : Int := 1

/-- Go constant `DefaultMinQueueSize = 1`. -/
def DefaultMinQueueSize : Int := 1

/-- Go constant `DefaultIdleTimeout = 5 * time.Second`, in nanoseconds. -/
def DefaultIdleTimeout : Int := 5000000000

/-- Embedding of `NewAutoScaleWorkerPool` (lines 31-44): the clamping of each
configuration field.  Note the Go code clamps `maxWorkers` only against
`DefaultMinWorkers` (i.e. `1`), not against the clamped `minWorkers`. -/
def newAutoScaleWorkerPool (minWorkers maxWorkers queueSize scaleThreshold idleTimeout : Int) :
    PoolConfig :=
  { minWorkers := max DefaultMinWorkers minWorkers
    maxWorkers := max DefaultMinWorkers maxWorkers
    queueSize := max DefaultMinQueueSize queueSize
    scaleThreshold := min (max scaleThreshold 1) 100
    idleTimeout := max DefaultIdleTimeout idleTimeout }

/-- Line 42: `pool.CurrentWorkers = pool.MinWorkers`. -/
def initialWorkers (c : PoolConfig) : Int := c.minWorkers

/-- Configurations reachable from the constructor satisfy these bounds
(note: `minWorkers ≤ maxWorkers` is NOT guaranteed). -/
def ValidConfig (c : PoolConfig) : Prop :=
  1 ≤ c.minWorkers ∧ 1 ≤ c.maxWorkers ∧ 1 ≤ c.queueSize ∧
    1 ≤ c.scaleThreshold ∧ c.scaleThreshold ≤ 100 ∧ DefaultIdleTimeout ≤ c.idleTimeout

instance (c : PoolConfig) : Decidable (ValidConfig c) := by
  unfold ValidConfig
  infer_instance

theorem newAutoScaleWorkerPool_valid (minW maxW qs thr idle : Int) :
    ValidConfig (newAutoScaleWorkerPool minW maxW qs thr idle) := by
  unfold ValidConfig newAutoScaleWorkerPool DefaultMinWorkers DefaultMinQueueSize
  simp only []
  refine ⟨le_max_left _ _, le_max_left _ _, le_max_left _ _, ?_, ?_, le_max_left _ _⟩
  · omega
  · omega

/-! ## Scaling controller tick: body of `Start` (lines 62-99) -/

/-- Line 65: `thresholdCount := pool.QueueSize * pool.ScaleThreshold / 100`
(Go integer division; operands are non-negative for every constructed
configuration, where Go's truncating division and Lean's `/` agree). -/
def thresholdCount (c : PoolConfig) : Int := c.queueSize * c.scaleThreshold / 100

/-- Line 68: `excess := qLen - thresholdCount`. -/
def excess (c : PoolConfig) (qLen : Int) : Int := qLen - thresholdCount c

/-- Line 71: `maxExcess := pool.QueueSize - thresholdCount`. -/
def maxExcess (c : PoolConfig) : Int := c.queueSize - thresholdCount c

/-- The EXACT-rational reading of lines 74-79, i.e. the formula of the spec
and of claim C3: `ratio = 1` when `maxExcess = 0`, else
`ratio = (qLen - thresholdCount)/(queueCapacity - thresholdCount)` as an
exact fraction.  The program computes this ratio in float64 instead — see
`tickRatioF64`, which models the IEEE rounding; claim C3 compares the two. -/
def tickRatio (c : PoolConfig) (qLen : Int) : ℚ :=
  if maxExcess c = 0 then 1 else (excess c qLen : ℚ) / (maxExcess c : ℚ)

/-- The EXACT-rational reading of line 83, the claim's
`floor(ratio * (maxWorkers - cur))` with `ratio` exact.  The program instead
truncates the float64 product — see `potentialAdditionalF64`; the two differ
on real inputs (claim C3's counterexample). -/
def potentialAdditional (c : PoolConfig) (qLen cur : Int) : Int :=
  ⌊tickRatio c qLen * ((c.maxWorkers - cur : Int) : ℚ)⌋

/-- Lines 86-91 applied to the exact-formula `potentialAdditional`:
`additional := max(1, potentialAdditional)`, then clamp so that
`currentWorkers + additional` does not exceed `MaxWorkers`.  The float64
counterpart is `tickAdditionalF64`.  Both versions satisfy the same
`1 ≤ additional` and `cur + additional ≤ maxWorkers` bounds (the clamp does
not depend on the `potentialAdditional` value), and they coincide whenever
the float64 arithmetic is exact — in particular at ratio `0` and ratio `1`,
the only ratios exercised by the concrete traces below. -/
def tickAdditional (c : PoolConfig) (qLen cur : Int) : Int :=
  if c.maxWorkers < cur + max 1 (potentialAdditional c qLen cur) then c.maxWorkers - cur
  else max 1 (potentialAdditional c qLen cur)

/-- Line 66: the guard `qLen >= thresholdCount && currentWorkers < pool.MaxWorkers`. -/
def scaleCondition (c : PoolConfig) (qLen cur : Int) : Prop :=
  thresholdCount c ≤ qLen ∧ cur < c.maxWorkers

instance (c : PoolConfig) (qLen cur : Int) : Decidable (scaleCondition c qLen cur) :=
  inferInstanceAs (Decidable (_ ∧ _))

/-- One controller tick (lines 62-99) as a function from the snapshot
`(qLen, cur)` to the resulting worker count. -/
def tickStep (c : PoolConfig) (qLen cur : Int) : Int :=
  if scaleCondition c qLen cur then cur + tickAdditional c qLen cur else cur

/-- Bridge from the rational `ratio` computation to integer division, for
evaluation: when `0 < maxExcess`,
`⌊(excess/maxExcess) * rem⌋ = excess * rem / maxExcess`. -/
theorem potentialAdditional_eq_div (c : PoolConfig) (qLen cur : Int)
    (h : 0 < maxExcess c) :
    potentialAdditional c qLen cur = excess c qLen * (c.maxWorkers - cur) / maxExcess c := by
  unfold potentialAdditional tickRatio
  rw [if_neg (by omega)]
  rw [div_mul_eq_mul_div, ← Int.cast_mul]
  rw [show ((maxExcess c : ℚ)) = ((maxExcess c).toNat : ℕ) from by
    norm_cast
    omega]
  rw [Rat.floor_intCast_div_natCast]
  rw [Int.toNat_of_nonneg h.le]

/-- When `maxExcess = 0`, the ratio is `1` and `potentialAdditional` is the
whole remaining headroom. -/
theorem potentialAdditional_eq_rem (c : PoolConfig) (qLen cur : Int)
    (h : maxExcess c = 0) :
    potentialAdditional c qLen cur = c.maxWorkers - cur := by
  unfold potentialAdditional tickRatio
  rw [if_pos h, one_mul, Int.floor_intCast]

/-- Bounds used by the capacity invariant: once the scale condition holds, the
tick adds at least one worker and never pushes the count above `maxWorkers`. -/
theorem tickAdditional_bounds (c : PoolConfig) (qLen cur : Int)
    (h : cur < c.maxWorkers) :
    1 ≤ tickAdditional c qLen cur ∧ cur + tickAdditional c qLen cur ≤ c.maxWorkers := by
  unfold tickAdditional
  set p := potentialAdditional c qLen cur with hp
  by_cases hc : c.maxWorkers < cur + max 1 p
  · rw [if_pos hc]
    omega
  · rw [if_neg hc]
    constructor
    · exact le_max_left _ _
    · omega

/-! ## The scaling tick in float64, as the program computes it

A non-negative IEEE-754 binary64 value is represented exactly as a pair
`(m, e) : ℕ × ℤ` denoting `m * 2 ^ e`; `f64round` produces the normalised
`2 ^ 52 ≤ m < 2 ^ 53` form (or `(0, 0)`).  The model covers the value range
reached from `int32` operands (far from overflow and subnormals), which is
the whole range the controller can produce. -/

/-- Round-half-to-even of the fraction `p / q` (`q > 0`) to an integer. -/
def rhe (p q : ℕ) : ℕ :=
  if 2 * (p % q) < q then p / q
  else if q < 2 * (p % q) then p / q + 1
  else if p / q % 2 = 0 then p / q else p / q + 1

/-- Fuelled base-2 integer logarithm (enough fuel is supplied at each use). -/
def nlog2 : ℕ → ℕ → ℕ
  | 0, _ => 0
  | fuel + 1, n => if n ≤ 1 then 0 else nlog2 fuel (n / 2) + 1

/-- IEEE-754 binary64 round-to-nearest-even of the exact fraction
`num / den` (`den > 0`), as a normalised `(mantissa, exponent)` pair: the
scaled quotient locates `t` with `2 ^ t ≤ num * 2 ^ 100 / den < 2 ^ (t+1)`,
the mantissa is the half-even rounding of `(num / den) * 2 ^ (152 - t)` into
`[2 ^ 52, 2 ^ 53]`, and a carry to `2 ^ 53` renormalises.  Both IEEE division
of exactly-represented operands and IEEE multiplication round the exact
result this way. -/
def f64round (num den : ℕ) : ℕ × ℤ :=
  if num = 0 then (0, 0)
  else
    let q := num * 2 ^ 100 / den
    let t := nlog2 240 q
    let j : ℤ := 152 - (t : ℤ)
    let m0 := if 0 ≤ j then rhe (num * 2 ^ j.toNat) den else rhe num (den * 2 ^ (-j).toNat)
    if m0 = 2 ^ 53 then (2 ^ 52, (t : ℤ) - 151) else (m0, (t : ℤ) - 152)

/-- IEEE multiplication of a float64 `x` by `float64(r)` (the conversion is
exact for `r < 2 ^ 53`): the correctly rounded exact product. -/
def f64mulNat (x : ℕ × ℤ) (r : ℕ) : ℕ × ℤ :=
  if 0 ≤ x.2 then f64round (x.1 * r * 2 ^ x.2.toNat) 1
  else f64round (x.1 * r) (2 ^ (-x.2).toNat)

/-- Go's `int32(f)` conversion of a non-negative float64: truncation toward
zero, i.e. the floor of `m * 2 ^ e`. -/
def f64truncToInt (x : ℕ × ℤ) : Int :=
  if 0 ≤ x.2 then ((x.1 * 2 ^ x.2.toNat : ℕ) : Int)
  else ((x.1 / 2 ^ (-x.2).toNat : ℕ) : Int)

/-- Lines 74-79 as the program computes them: `ratio = 1.0` when
`maxExcess == 0`, else the float64 division
`float64(excess) / float64(maxExcess)` (the `int32`-to-float64 conversions
are exact, the division is correctly rounded).  In the guarded branch both
operands are non-negative, so the `Int.toNat` casts are lossless. -/
def tickRatioF64 (c : PoolConfig) (qLen : Int) : ℕ × ℤ :=
  if maxExcess c = 0 then f64round 1 1
  else f64round (excess c qLen).toNat (maxExcess c).toNat

/-- Line 83 as the program computes it:
`int32(ratio * float64(pool.MaxWorkers-currentWorkers))` — a correctly
rounded float64 product, then truncation toward zero. -/
def potentialAdditionalF64 (c : PoolConfig) (qLen cur : Int) : Int :=
  f64truncToInt (f64mulNat (tickRatioF64 c qLen) (c.maxWorkers - cur).toNat)

/-- Lines 86-91 on the float64-computed `potentialAdditional`. -/
def tickAdditionalF64 (c : PoolConfig) (qLen cur : Int) : Int :=
  if c.maxWorkers < cur + max 1 (potentialAdditionalF64 c qLen cur) then c.maxWorkers - cur
  else max 1 (potentialAdditionalF64 c qLen cur)

/-- One controller tick (lines 62-99) with the arithmetic of the program:
the resulting worker count from the snapshot `(qLen, cur)`. -/
def tickStepF64 (c : PoolConfig) (qLen cur : Int) : Int :=
  if scaleCondition c qLen cur then cur + tickAdditionalF64 c qLen cur else cur

/-! ## Claims C2, C3, C8, C9 -/

/-- C2 counterexample: with `minWorkers = 5, maxWorkers = 2` the constructor
stores `MinWorkers = 5` and `MaxWorkers = 2`: `MaxWorkers` is NOT raised to at
least `MinWorkers` (line 34 clamps it only against `DefaultMinWorkers = 1`),
refuting the claimed `MaxWorkers ≥ MinWorkers` postcondition. -/
theorem c2_counterexample_max_below_min :
    (newAutoScaleWorkerPool 5 2 10 50 0).minWorkers = 5 ∧
    (newAutoScaleWorkerPool 5 2 10 50 0).maxWorkers = 2 ∧
    ¬ (newAutoScaleWorkerPool 5 2 10 50 0).minWorkers ≤
        (newAutoScaleWorkerPool 5 2 10 50 0).maxWorkers := by
  refine ⟨rfl, rfl, by decide⟩

/-- C2 (amended): the stored configuration satisfies
`MinWorkers = max 1 minWorkers`, `MaxWorkers = max 1 maxWorkers` (at least 1,
but NOT raised to `MinWorkers`), `QueueSize = max 1 queueSize`,
`ScaleThreshold = min (max scaleThreshold 1) 100 ∈ [1,100]`,
`IdleTimeout ≥ DefaultIdleTimeout`; construction is total (never fails) and
`CurrentWorkers` is initialised to `MinWorkers`. -/
theorem c2_construction_clamps (minW maxW qs thr idle : Int) :
    (newAutoScaleWorkerPool minW maxW qs thr idle).minWorkers = max 1 minW ∧
    (newAutoScaleWorkerPool minW maxW qs thr idle).maxWorkers = max 1 maxW ∧
    (newAutoScaleWorkerPool minW maxW qs thr idle).queueSize = max 1 qs ∧
    (newAutoScaleWorkerPool minW maxW qs thr idle).scaleThreshold = min (max thr 1) 100 ∧
    1 ≤ (newAutoScaleWorkerPool minW maxW qs thr idle).scaleThreshold ∧
    (newAutoScaleWorkerPool minW maxW qs thr idle).scaleThreshold ≤ 100 ∧
    (newAutoScaleWorkerPool minW maxW qs thr idle).idleTimeout = max DefaultIdleTimeout idle ∧
    DefaultIdleTimeout ≤ (newAutoScaleWorkerPool minW maxW qs thr idle).idleTimeout ∧
    initialWorkers (newAutoScaleWorkerPool minW maxW qs thr idle) =
      (newAutoScaleWorkerPool minW maxW qs thr idle).minWorkers := by
  unfold newAutoScaleWorkerPool initialWorkers DefaultMinWorkers DefaultMinQueueSize
  dsimp only
  refine ⟨rfl, rfl, rfl, rfl, ?_, ?_, rfl, le_max_left _ _, rfl⟩ <;> omega

/-- C3 counterexample: the claim's formula computes the ratio and the product
in exact arithmetic, but the program computes them in float64.  With
`maxWorkers=23, queueCapacity=44, threshold=50%` (so `thresholdCount = 22`),
`qLen = 37` and `cur = 1`: `excess = 15`, `maxExcess = 22`,
`maxWorkers - cur = 22`; the claimed value is
`cur + min(22, max(1, ⌊(15/22)·22⌋)) = 1 + 15 = 16`, but the program computes
`int32((15.0/22.0)*22.0) = int32(14.999999999999998) = 14` and the tick ends
at `15`.  So the claimed universal formula is false of the program. -/
theorem c3_counterexample_float_rounding :
    tickStepF64 (newAutoScaleWorkerPool 1 23 44 50 0) 37 1 = 15 ∧
    tickStep (newAutoScaleWorkerPool 1 23 44 50 0) 37 1 = 16 ∧
    tickStepF64 (newAutoScaleWorkerPool 1 23 44 50 0) 37 1 ≠
      tickStep (newAutoScaleWorkerPool 1 23 44 50 0) 37 1 ∧
    potentialAdditionalF64 (newAutoScaleWorkerPool 1 23 44 50 0) 37 1 = 14 ∧
    potentialAdditional (newAutoScaleWorkerPool 1 23 44 50 0) 37 1 = 15 := by
  have hpexact : potentialAdditional (newAutoScaleWorkerPool 1 23 44 50 0) 37 1 = 15 := by
    rw [potentialAdditional_eq_div _ _ _ (by decide)]
    decide
  have hexact : tickStep (newAutoScaleWorkerPool 1 23 44 50 0) 37 1 = 16 := by
    unfold tickStep
    rw [if_pos (by decide)]
    unfold tickAdditional
    rw [hpexact]
    decide
  have hf : tickStepF64 (newAutoScaleWorkerPool 1 23 44 50 0) 37 1 = 15 := by decide
  exact ⟨hf, hexact, by rw [hf, hexact]; decide, by decide, hpexact⟩

/-- C3 (amended): on a tick with snapshot `(qLen, cur)`: if
`qLen < thresholdCount` or `cur ≥ maxWorkers` the count is unchanged;
otherwise the tick adds exactly
`min (maxWorkers - cur) (max 1 potentialAdditionalF64)` workers, where
`potentialAdditionalF64` is `int32(ratio * float64(maxWorkers - cur))` with
the ratio and the product computed in float64 (round-to-nearest-even) — NOT
the exact `⌊ratio * (maxWorkers - cur)⌋` of the claim, which can exceed the
program's value by one (see the counterexample).  In the concrete scenario
`minWorkers=2, maxWorkers=5, queueCapacity=10, threshold=50%, qLen=10, cur=2`
the float64 arithmetic is exact (`ratio = 1.0`) and the tick brings the count
to exactly `5`. -/
theorem c3_tick_float_formula (c : PoolConfig) (qLen cur : Int) :
    (qLen < thresholdCount c ∨ c.maxWorkers ≤ cur → tickStepF64 c qLen cur = cur) ∧
    (thresholdCount c ≤ qLen → cur < c.maxWorkers →
      tickStepF64 c qLen cur =
        cur + min (c.maxWorkers - cur) (max 1 (potentialAdditionalF64 c qLen cur))) ∧
    tickStepF64 (newAutoScaleWorkerPool 2 5 10 50 5000000000) 10 2 = 5 := by
  refine ⟨?_, ?_, by decide⟩
  · intro h
    unfold tickStepF64
    rw [if_neg]
    unfold scaleCondition
    omega
  · intro h1 h2
    unfold tickStepF64
    rw [if_pos ⟨h1, h2⟩]
    unfold tickAdditionalF64
    set p := potentialAdditionalF64 c qLen cur with hp
    by_cases hc : c.maxWorkers < cur + max 1 p
    · rw [if_pos hc]; omega
    · rw [if_neg hc]; omega

/-- Witness for C3 (amended) at concrete inputs: below threshold the tick is
a no-op, and crossing the threshold at `qLen = 6, cur = 2` adds the float64
formula amount. -/
theorem c3_tick_float_formula_witness :
    tickStepF64 (newAutoScaleWorkerPool 2 5 10 50 5000000000) 3 1 = 1 ∧
    tickStepF64 (newAutoScaleWorkerPool 2 5 10 50 5000000000) 6 2 =
      2 + min 3 (max 1 (potentialAdditionalF64 (newAutoScaleWorkerPool 2 5 10 50 5000000000) 6 2)) :=
  ⟨(c3_tick_float_formula _ 3 1).1 (by decide),
   (c3_tick_float_formula _ 6 2).2.1 (by decide) (by decide)⟩

/-- C8: with scale threshold 100% the threshold count equals the queue
capacity, `maxExcess = 0`, the ratio is set to `1` without performing the
division (the `maxExcess = 0` branch of `tickRatio`), and a tick with the
queue at capacity scales straight up to `maxWorkers`. -/
theorem c8_threshold_100_no_div (c : PoolConfig) (qLen cur : Int)
    (hv : ValidConfig c) (hthr : c.scaleThreshold = 100) :
    thresholdCount c = c.queueSize ∧ maxExcess c = 0 ∧ tickRatio c qLen = 1 ∧
    (qLen = c.queueSize → cur < c.maxWorkers → tickStep c qLen cur = c.maxWorkers) := by
  obtain ⟨h1, h2, h3, h4, h5, h6⟩ := hv
  have ht : thresholdCount c = c.queueSize := by
    unfold thresholdCount
    rw [hthr]
    omega
  have hm : maxExcess c = 0 := by
    unfold maxExcess
    omega
  refine ⟨ht, hm, ?_, ?_⟩
  · unfold tickRatio
    rw [if_pos hm]
  · intro hq hcur
    unfold tickStep
    rw [if_pos ⟨by omega, hcur⟩]
    unfold tickAdditional
    rw [potentialAdditional_eq_rem _ _ _ hm]
    by_cases hc : c.maxWorkers < cur + max 1 (c.maxWorkers - cur)
    · rw [if_pos hc]; omega
    · rw [if_neg hc]; omega

/-- Witness for C8: `minWorkers=1, maxWorkers=5, queueCapacity=10,
threshold=100%`, queue full (`qLen = 10`), `cur = 1`: one tick reaches 5. -/
theorem c8_threshold_100_no_div_witness :
    maxExcess (newAutoScaleWorkerPool 1 5 10 100 0) = 0 ∧
    tickStep (newAutoScaleWorkerPool 1 5 10 100 0) 10 1 = 5 :=
  ⟨(c8_threshold_100_no_div (newAutoScaleWorkerPool 1 5 10 100 0) 10 1 (by decide)
      (by decide)).2.1,
   (c8_threshold_100_no_div (newAutoScaleWorkerPool 1 5 10 100 0) 10 1 (by decide)
      (by decide)).2.2.2 (by decide) (by decide)⟩

/-- C9: whenever `queueCapacity * scaleThresholdPercent < 100`, the integer
threshold count is `0`, so the scale condition holds on every tick with any
`qLen ≥ 0` (even an empty queue), and while `cur < maxWorkers` each tick adds
at least one worker (never overshooting `maxWorkers`), independent of
backlog. -/
theorem c9_small_product_always_scales (c : PoolConfig) (hv : ValidConfig c)
    (h : c.queueSize * c.scaleThreshold < 100) :
    thresholdCount c = 0 ∧
    ∀ qLen cur : Int, 0 ≤ qLen → cur < c.maxWorkers →
      cur + 1 ≤ tickStep c qLen cur ∧ tickStep c qLen cur ≤ c.maxWorkers := by
  obtain ⟨h1, h2, h3, h4, h5, h6⟩ := hv
  have hpos : 0 ≤ c.queueSize * c.scaleThreshold :=
    mul_nonneg (by omega) (by omega)
  have ht : thresholdCount c = 0 := by
    unfold thresholdCount
    omega
  refine ⟨ht, fun qLen cur hq hcur => ?_⟩
  have hb := tickAdditional_bounds c qLen cur hcur
  unfold tickStep
  rw [if_pos ⟨by omega, hcur⟩]
  omega

/-- Witness for C9: `queueCapacity=9, threshold=10%` gives product `90 < 100`,
threshold count `0`; a tick on an empty queue with `cur = 1 < maxWorkers = 3`
still adds a worker. -/
theorem c9_small_product_always_scales_witness :
    thresholdCount (newAutoScaleWorkerPool 1 3 9 10 0) = 0 ∧
    1 + 1 ≤ tickStep (newAutoScaleWorkerPool 1 3 9 10 0) 0 1 ∧
    tickStep (newAutoScaleWorkerPool 1 3 9 10 0) 0 1 ≤ 3 :=
  ⟨(c9_small_product_always_scales (newAutoScaleWorkerPool 1 3 9 10 0) (by decide) (by decide)).1,
   ((c9_small_product_always_scales (newAutoScaleWorkerPool 1 3 9 10 0) (by decide)
      (by decide)).2 0 1 (by decide) (by decide)).1,
   ((c9_small_product_always_scales (newAutoScaleWorkerPool 1 3 9 10 0) (by decide)
      (by decide)).2 0 1 (by decide) (by decide)).2⟩

/-! ## SafeMap (`safeMap.go`) -/

/-- Model of `SafeMap`: the underlying Go `map[KEY]VALUE` as an association
list with at most one entry per key.  The `sync.RWMutex` only serialises the
operations; the claims are about the sequential semantics of every operation
sequence, so the mutex does not appear in the model. -/
structure SafeMap (K V : Type) where
  data : List (K × V)

namespace SafeMap

variable {K V : Type} [DecidableEq K] [Inhabited V]

/-- Go map lookup `value, ok := m.data[key]`. -/
def lookupData : List (K × V) → K → Option V
  | [], _ => none
  | (k', v) :: rest, k => if k' = k then some v else lookupData rest k

/-- `NewSafeMap` (lines 10-19); the optional size argument only pre-sizes the
allocation and does not affect the contents. -/
def NewSafeMap : SafeMap K V := ⟨[]⟩

/-- `Get` (lines 21-26): stored value and presence flag; a missing key yields
the zero value of `VALUE`. -/
def Get (m : SafeMap K V) (k : K) : V × Bool :=
  ((lookupData m.data k).getD default, (lookupData m.data k).isSome)

/-- `Set` (lines 28-32): `m.data[key] = value` inserts or overwrites. -/
def Set (m : SafeMap K V) (k : K) (v : V) : SafeMap K V :=
  ⟨(m.data.filter fun p => decide (p.1 ≠ k)) ++ [(k, v)]⟩

/-- `Delete` (lines 34-40): `delete(m.data, key)` for every key of the
variadic argument. -/
def Delete (m : SafeMap K V) (ks : List K) : SafeMap K V :=
  ⟨m.data.filter fun p => decide (p.1 ∉ ks)⟩

/-- `Len` (lines 42-46): `len(m.data)`. -/
def Len (m : SafeMap K V) : Nat := m.data.length

/-- Keys currently present in the map. -/
def keysList (m : SafeMap K V) : List K := m.data.map Prod.fst

end SafeMap

/-- One recorded call against a `SafeMap`. -/
inductive MapOp (K V : Type) where
  | set (k : K) (v : V)
  | del (ks : List K)

def applyOp {K V : Type} [DecidableEq K] (m : SafeMap K V) : MapOp K V → SafeMap K V
  | .set k v => m.Set k v
  | .del ks => m.Delete ks

/-- Replay a sequence of `Set`/`Delete` calls against a fresh `SafeMap`. -/
def runOps {K V : Type} [DecidableEq K] (ops : List (MapOp K V)) : SafeMap K V :=
  ops.foldl applyOp SafeMap.NewSafeMap

/-- The set of keys that have been `Set` and not subsequently `Delete`d. -/
def aliveStep {K V : Type} [DecidableEq K] (s : Finset K) : MapOp K V → Finset K
  | .set k _ => insert k s
  | .del ks => s \ ks.toFinset

def aliveKeys {K V : Type} [DecidableEq K] (ops : List (MapOp K V)) : Finset K :=
  ops.foldl aliveStep ∅

namespace SafeMap

theorem lookupData_filter_ne_append {K V : Type} [DecidableEq K]
    (l : List (K × V)) (k : K) (v : V) :
    lookupData ((l.filter fun p => decide (p.1 ≠ k)) ++ [(k, v)]) k = some v := by
  induction l with
  | nil => simp [lookupData]
  | cons p rest ih =>
    by_cases h : p.1 = k
    · simpa [List.filter_cons, h] using ih
    · simpa [List.filter_cons, h, lookupData] using ih

theorem lookupData_filter_notmem {K V : Type} [DecidableEq K]
    (l : List (K × V)) (ks : List K) (k : K) (h : k ∈ ks) :
    lookupData (l.filter fun p => decide (p.1 ∉ ks)) k = none := by
  induction l with
  | nil => simp [lookupData]
  | cons p rest ih =>
    by_cases hp : p.1 ∈ ks
    · simpa [List.filter_cons, hp] using ih
    · have hne : p.1 ≠ k := fun he => hp (he ▸ h)
      simpa [List.filter_cons, hp, lookupData, hne] using ih

theorem map_fst_filter_ne {K V : Type} [DecidableEq K] (l : List (K × V)) (k : K) :
    (l.filter fun p => decide (p.1 ≠ k)).map Prod.fst =
      (l.map Prod.fst).filter fun x => decide (x ≠ k) := by
  induction l with
  | nil => rfl
  | cons p rest ih =>
    by_cases h : p.1 = k
    · have hd : ¬(decide (p.1 ≠ k) = true) := by simp [h]
      rw [List.filter_cons, if_neg hd, List.map_cons, List.filter_cons, if_neg hd]
      exact ih
    · have hd : decide (p.1 ≠ k) = true := by simp [h]
      rw [List.filter_cons, if_pos hd, List.map_cons, List.map_cons,
        List.filter_cons, if_pos hd, ih]

theorem map_fst_filter_nmem {K V : Type} [DecidableEq K] (l : List (K × V)) (ks : List K) :
    (l.filter fun p => decide (p.1 ∉ ks)).map Prod.fst =
      (l.map Prod.fst).filter fun x => decide (x ∉ ks) := by
  induction l with
  | nil => rfl
  | cons p rest ih =>
    by_cases h : p.1 ∈ ks
    · have hd : ¬(decide (p.1 ∉ ks) = true) := by simp [h]
      rw [List.filter_cons, if_neg hd, List.map_cons, List.filter_cons, if_neg hd]
      exact ih
    · have hd : decide (p.1 ∉ ks) = true := by simp [h]
      rw [List.filter_cons, if_pos hd, List.map_cons, List.map_cons,
        List.filter_cons, if_pos hd, ih]

theorem keysList_Set {K V : Type} [DecidableEq K] (m : SafeMap K V) (k : K) (v : V) :
    keysList (m.Set k v) = ((keysList m).filter fun x => decide (x ≠ k)) ++ [k] := by
  obtain ⟨l⟩ := m
  show (((l.filter fun p => decide (p.1 ≠ k)) ++ [(k, v)]).map Prod.fst) = _
  rw [List.map_append, map_fst_filter_ne]
  rfl

theorem keysList_Delete {K V : Type} [DecidableEq K] (m : SafeMap K V) (ks : List K) :
    keysList (m.Delete ks) = (keysList m).filter fun x => decide (x ∉ ks) := by
  obtain ⟨l⟩ := m
  show ((l.filter fun p => decide (p.1 ∉ ks)).map Prod.fst) = _
  rw [map_fst_filter_nmem]
  rfl

theorem nodup_keys_Set {K V : Type} [DecidableEq K] (m : SafeMap K V) (k : K) (v : V)
    (h : (keysList m).Nodup) : (keysList (m.Set k v)).Nodup := by
  rw [keysList_Set]
  rw [List.nodup_append]
  refine ⟨h.filter _, List.nodup_singleton _, ?_⟩
  intro x hx hmem
  rw [List.mem_singleton] at hmem
  subst hmem
  rw [List.mem_filter] at hx
  simp at hx

theorem nodup_keys_Delete {K V : Type} [DecidableEq K] (m : SafeMap K V) (ks : List K)
    (h : (keysList m).Nodup) : (keysList (m.Delete ks)).Nodup := by
  rw [keysList_Delete]
  exact h.filter _

theorem toFinset_keys_Set {K V : Type} [DecidableEq K] (m : SafeMap K V) (k : K) (v : V) :
    (keysList (m.Set k v)).toFinset = insert k (keysList m).toFinset := by
  rw [keysList_Set]
  ext x
  simp only [List.toFinset_append, Finset.mem_union, List.mem_toFinset,
    List.mem_filter, decide_eq_true_eq, List.mem_singleton, Finset.mem_insert,
    List.toFinset_cons, List.toFinset_nil, insert_emptyc_eq,
    Finset.mem_singleton]
  tauto

theorem toFinset_keys_Delete {K V : Type} [DecidableEq K] (m : SafeMap K V) (ks : List K) :
    (keysList (m.Delete ks)).toFinset = (keysList m).toFinset \ ks.toFinset := by
  rw [keysList_Delete]
  ext x
  simp only [List.mem_toFinset, List.mem_filter, decide_eq_true_eq,
    Finset.mem_sdiff]

theorem foldl_applyOp_keys {K V : Type} [DecidableEq K] (ops : List (MapOp K V)) :
    ∀ (m : SafeMap K V) (s : Finset K),
      (keysList m).Nodup → (keysList m).toFinset = s →
      (keysList (ops.foldl applyOp m)).Nodup ∧
        (keysList (ops.foldl applyOp m)).toFinset = ops.foldl aliveStep s := by
  induction ops with
  | nil => exact fun m s h1 h2 => ⟨h1, h2⟩
  | cons op rest ih =>
    intro m s h1 h2
    cases op with
    | set k v =>
      refine ih (m.Set k v) (insert k s) (nodup_keys_Set m k v h1) ?_
      rw [toFinset_keys_Set, h2]
    | del ks =>
      refine ih (m.Delete ks) (s \ ks.toFinset) (nodup_keys_Delete m ks h1) ?_
      rw [toFinset_keys_Delete, h2]

end SafeMap

/-- C10: for any comparable key type and any value type, after `Set k v`,
`Get k` returns `(v, true)`; after `Delete` of a list containing `k`, `Get k`
returns the zero value with `false`; and for every sequence of `Set`/`Delete`
calls replayed from a fresh map, `Len` equals the number of distinct keys that
have been `Set` and not subsequently `Delete`d. -/
theorem c10_safeMap_get_set_delete_len {K V : Type} [DecidableEq K] [Inhabited V] :
    (∀ (m : SafeMap K V) (k : K) (v : V), (m.Set k v).Get k = (v, true)) ∧
    (∀ (m : SafeMap K V) (ks : List K) (k : K), k ∈ ks →
      (m.Delete ks).Get k = (default, false)) ∧
    (∀ ops : List (MapOp K V), (runOps ops).Len = (aliveKeys ops).card) := by
  refine ⟨?_, ?_, ?_⟩
  · intro m k v
    unfold SafeMap.Get SafeMap.Set
    rw [show ((⟨(m.data.filter fun p => decide (p.1 ≠ k)) ++ [(k, v)]⟩ : SafeMap K V)).data =
      (m.data.filter fun p => decide (p.1 ≠ k)) ++ [(k, v)] from rfl]
    rw [SafeMap.lookupData_filter_ne_append]
    rfl
  · intro m ks k h
    unfold SafeMap.Get SafeMap.Delete
    rw [show ((⟨m.data.filter fun p => decide (p.1 ∉ ks)⟩ : SafeMap K V)).data =
      m.data.filter fun p => decide (p.1 ∉ ks) from rfl]
    rw [SafeMap.lookupData_filter_notmem _ _ _ h]
    rfl
  · intro ops
    have h := SafeMap.foldl_applyOp_keys (V := V) ops SafeMap.NewSafeMap ∅
      (by simp [SafeMap.keysList, SafeMap.NewSafeMap])
      (by simp [SafeMap.keysList, SafeMap.NewSafeMap])
    have hlen : (runOps ops).Len =
        (SafeMap.keysList (ops.foldl applyOp SafeMap.NewSafeMap)).length := by
      unfold runOps SafeMap.Len SafeMap.keysList
      rw [List.length_map]
    rw [hlen, ← List.toFinset_card_of_nodup h.1, h.2]
    rfl

/-- Witness for C10 with `K = V = ℕ`: set then get, delete then get, and a
four-operation replay whose live key set is `{1}`. -/
theorem c10_safeMap_get_set_delete_len_witness :
    ((SafeMap.NewSafeMap : SafeMap Nat Nat).Set 1 7).Get 1 = (7, true) ∧
    (((SafeMap.NewSafeMap : SafeMap Nat Nat).Set 1 7).Delete [1]).Get 1 = (0, false) ∧
    (runOps [MapOp.set 1 7, MapOp.set 2 9, MapOp.set 1 8, MapOp.del [2]]).Len =
      (aliveKeys [MapOp.set (V := Nat) 1 7, MapOp.set 2 9, MapOp.set 1 8,
        MapOp.del [2]]).card :=
  ⟨c10_safeMap_get_set_delete_len.1 _ 1 7,
   c10_safeMap_get_set_delete_len.2.1 _ [1] 1 (by decide),
   c10_safeMap_get_set_delete_len.2.2 _⟩

/-! ## Concurrent semantics of the pool

The goroutines of `autoScaleWorkerPool.go` are embedded as a small-step
transition relation over a pool state.  Each constructor of `Step` is one
atomic action of the Go code: an atomic load/add on `CurrentWorkers`, a
channel operation, or one `select` arm firing.  When several `select` cases
are ready Go picks one pseudo-randomly, so every ready arm is a possible
step; in particular a worker whose idle timer has fired may take the
`timer.C` arm even while the queue is non-empty, and the ticker arm may fire
even after cancellation. -/

/-- Phase of one worker goroutine (`worker`, lines 135-169). -/
inductive WPhase where
  /-- inside the `for`/`select` loop (waiting or executing `WorkFunc`) -/
  | running
  /-- has taken a `return` path out of the loop; the deferred
  `atomic.AddInt32(&pool.CurrentWorkers, -1)` (line 137) has not run yet -/
  | passedCheck
  /-- deferred decrement done, `WG.Done` called -/
  | exited
deriving DecidableEq

/-- Phase of the input bridge (`readChan`, lines 112-129) and of the
`close(pool.Queue)` in `Start` (line 108). -/
inductive BPhase where
  /-- the `readChan` loop is running -/
  | relaying
  /-- `readChan` returned because `InputChan` was drained and closed -/
  | returnedExhausted
  /-- `readChan` returned because `ctx.Done()` fired -/
  | returnedCancelled
  /-- `Start` has executed `close(pool.Queue)` -/
  | closedDone
deriving DecidableEq

/-- Phase of the scaling controller goroutine (lines 56-104).  In the Go code
the `for range additional` spawn loop (lines 93-97) runs BEFORE the
`atomic.AddInt32(&pool.CurrentWorkers, additional)` (line 98), so between the
two there is a state in which the spawned workers exist but the count does
not yet include them. -/
inductive CPhase where
  | cIdle
  /-- workers already spawned, the atomic add of `additional` still pending -/
  | cPending (additional : Int)
deriving DecidableEq

/-- State of the whole pool.  `input` holds the items the external source
will still deliver before it is closed; `queue` is the contents of
`pool.Queue`; `processed` counts completed `WorkFunc` invocations;
`abandoned` counts items taken from `InputChan` and dropped when cancellation
preempted the blocked enqueue (lines 120-124). -/
structure PoolState (T : Type) where
  cfg : PoolConfig
  input : List T
  queue : List T
  queueClosed : Bool
  cancelled : Bool
  workers : List WPhase
  cur : Int
  processed : Nat
  abandoned : Nat
  bridge : BPhase
  ctrl : CPhase
deriving DecidableEq

/-- Pool state right after `NewAutoScaleWorkerPool`: `CurrentWorkers =
MinWorkers` workers spawned, empty queue, nothing cancelled or closed. -/
def initState {T : Type} (cfg : PoolConfig) (input : List T) : PoolState T :=
  { cfg := cfg, input := input, queue := [], queueClosed := false,
    cancelled := false,
    workers := List.replicate cfg.minWorkers.toNat .running,
    cur := cfg.minWorkers, processed := 0, abandoned := 0,
    bridge := .relaying, ctrl := .cIdle }

/-- One atomic action of the pool. -/
inductive Step {T : Type} : PoolState T → PoolState T → Prop where
  /-- `Stop` (lines 131-133): the context is cancelled (at most once). -/
  | stop (s : PoolState T) (h : s.cancelled = false) :
      Step s { s with cancelled := true }
  /-- `readChan` line 121: an item is received from `InputChan` and enqueued
  (the enqueue can only complete while the queue has room). -/
  | readChanRelay (s : PoolState T) (x : T) (rest : List T)
      (hb : s.bridge = .relaying) (hi : s.input = x :: rest)
      (hq : (s.queue.length : Int) < s.cfg.queueSize) :
      Step s { s with input := rest, queue := s.queue ++ [x] }
  /-- `readChan` lines 120-124: an item was received but `ctx.Done()` wins
  the inner `select`; the item is abandoned and the bridge returns. -/
  | readChanAbandon (s : PoolState T) (x : T) (rest : List T)
      (hb : s.bridge = .relaying) (hi : s.input = x :: rest)
      (hc : s.cancelled = true) :
      Step s { s with
        input := rest,
        abandoned := s.abandoned + 1,
        bridge := .returnedCancelled }
  /-- `readChan` lines 125-126: `ctx.Done()` wins the outer `select`. -/
  | readChanCancel (s : PoolState T) (hb : s.bridge = .relaying)
      (hc : s.cancelled = true) :
      Step s { s with bridge := .returnedCancelled }
  /-- `readChan` lines 115-118: `InputChan` is drained and closed (`!ok`). -/
  | readChanExhausted (s : PoolState T) (hb : s.bridge = .relaying)
      (hi : s.input = []) :
      Step s { s with bridge := .returnedExhausted }
  /-- `Start` line 108: `close(pool.Queue)` runs as soon as `readChan`
  returns, regardless of WHICH `return` path it took. -/
  | closeQueue (s : PoolState T)
      (hb : s.bridge = .returnedExhausted ∨ s.bridge = .returnedCancelled) :
      Step s { s with queueClosed := true, bridge := .closedDone }
  /-- `worker` lines 146-156: a running worker receives a payload and runs
  `WorkFunc` synchronously to completion. -/
  | workerDequeue (s : PoolState T) (x : T) (rest : List T)
      (l₁ l₂ : List WPhase) (hw : s.workers = l₁ ++ .running :: l₂)
      (hq : s.queue = x :: rest) :
      Step s { s with queue := rest, processed := s.processed + 1 }
  /-- `worker` lines 157-160: the idle timer arm fires and the atomic load
  sees `CurrentWorkers > MinWorkers`, so the worker takes the `return`
  branch.  The deferred decrement is a separate later step
  (`workerDecrement`), which is exactly the check-then-act window. -/
  | workerIdlePass (s : PoolState T) (l₁ l₂ : List WPhase)
      (hw : s.workers = l₁ ++ .running :: l₂)
      (hcur : s.cfg.minWorkers < s.cur) :
      Step s { s with workers := l₁ ++ .passedCheck :: l₂ }
  /-- `worker` lines 146-149: the queue is closed and drained, the receive
  reports `!ok` and the worker returns. -/
  | workerClosedExit (s : PoolState T) (l₁ l₂ : List WPhase)
      (hw : s.workers = l₁ ++ .running :: l₂)
      (hclosed : s.queueClosed = true) (hq : s.queue = []) :
      Step s { s with workers := l₁ ++ .passedCheck :: l₂ }
  /-- `worker` lines 165-166: `ctx.Done()` fires and the worker returns. -/
  | workerCancelExit (s : PoolState T) (l₁ l₂ : List WPhase)
      (hw : s.workers = l₁ ++ .running :: l₂) (hc : s.cancelled = true) :
      Step s { s with workers := l₁ ++ .passedCheck :: l₂ }
  /-- `worker` lines 136-139: the deferred `atomic.AddInt32(-1)` of a worker
  that has returned. -/
  | workerDecrement (s : PoolState T) (l₁ l₂ : List WPhase)
      (hw : s.workers = l₁ ++ .passedCheck :: l₂) :
      Step s { s with workers := l₁ ++ .exited :: l₂, cur := s.cur - 1 }
  /-- controller lines 62-97: a tick fires, the snapshot satisfies the scale
  condition, and `additional` workers are spawned (`go pool.worker()`);
  the `atomic.AddInt32` of line 98 is still pending. -/
  | tickSpawn (s : PoolState T) (hc : s.ctrl = .cIdle)
      (hcond : scaleCondition s.cfg (s.queue.length : Int) s.cur) :
      Step s { s with
        workers := s.workers ++
          List.replicate (tickAdditional s.cfg (s.queue.length : Int) s.cur).toNat .running,
        ctrl := .cPending (tickAdditional s.cfg (s.queue.length : Int) s.cur) }
  /-- controller line 98: `atomic.AddInt32(&pool.CurrentWorkers, additional)`. -/
  | tickAdd (s : PoolState T) (a : Int) (hc : s.ctrl = .cPending a) :
      Step s { s with cur := s.cur + a, ctrl := .cIdle }

/-- Reachability from a state by any interleaving of atomic actions. -/
def Reachable {T : Type} : PoolState T → PoolState T → Prop :=
  Relation.ReflTransGen Step

/-- The pending atomic add of the controller (0 when idle). -/
def ctrlPending {T : Type} (s : PoolState T) : Int :=
  match s.ctrl with
  | .cIdle => 0
  | .cPending a => a

/-- 1 for a worker goroutine that has not yet run its deferred decrement. -/
def phaseWeight : WPhase → Int
  | .running => 1
  | .passedCheck => 1
  | .exited => 0

/-- Number of worker goroutines whose deferred decrement has not run yet. -/
def liveCount {T : Type} (s : PoolState T) : Int :=
  (s.workers.map phaseWeight).sum

/-- Every spawned worker has fully exited (the `WaitGroup` is drained, so
`WG.Wait` — the pool's join — has returned). -/
def allWorkersExited {T : Type} (s : PoolState T) : Prop :=
  ∀ w ∈ s.workers, w = .exited

instance {T : Type} (s : PoolState T) : Decidable (allWorkersExited s) :=
  inferInstanceAs (Decidable (∀ w ∈ s.workers, w = .exited))

/-- Steps never change the configuration. -/
theorem Step.cfg_eq {T : Type} {s s' : PoolState T} (h : Step s s') :
    s'.cfg = s.cfg := by
  cases h <;> rfl

/-- Helper for concrete traces: `tickSpawn` with the `additional` value
evaluated through the integer form of the ratio computation. -/
theorem Step.tickSpawnEval {T : Type} (s : PoolState T) (a : Int)
    (hc : s.ctrl = .cIdle)
    (hcond : scaleCondition s.cfg (s.queue.length : Int) s.cur)
    (ha : tickAdditional s.cfg (s.queue.length : Int) s.cur = a) :
    Step s { s with
      workers := s.workers ++ List.replicate a.toNat .running,
      ctrl := .cPending a } := by
  cases ha
  exact Step.tickSpawn s hc hcond

/-- Evaluation helper: compute `tickAdditional` by integer division when
`maxExcess` is positive. -/
theorem tickAdditional_eval (c : PoolConfig) (qLen cur a : Int)
    (h0 : 0 < maxExcess c)
    (h : (if c.maxWorkers <
            cur + max 1 (excess c qLen * (c.maxWorkers - cur) / maxExcess c)
          then c.maxWorkers - cur
          else max 1 (excess c qLen * (c.maxWorkers - cur) / maxExcess c)) = a) :
    tickAdditional c qLen cur = a := by
  unfold tickAdditional
  rw [potentialAdditional_eq_div _ _ _ h0]
  exact h

/-! ## Invariants of the pool semantics (claims C1, C4, C6) -/

/-- Preservation of the capacity upper bound: one step keeps
`cur + pendingAdd ≤ maxWorkers` (and the pending add non-negative). -/
theorem upperBound_step {T : Type} (cfg : PoolConfig) {b c : PoolState T}
    (hs : Step b c)
    (ih : b.cfg = cfg ∧ 0 ≤ ctrlPending b ∧ b.cur + ctrlPending b ≤ cfg.maxWorkers) :
    c.cfg = cfg ∧ 0 ≤ ctrlPending c ∧ c.cur + ctrlPending c ≤ cfg.maxWorkers := by
  obtain ⟨hcfg, hp0, hble⟩ := ih
  cases hs with
  | stop h => exact ⟨hcfg, hp0, hble⟩
  | readChanRelay x rest hb hi hq => exact ⟨hcfg, hp0, hble⟩
  | readChanAbandon x rest hb hi hc => exact ⟨hcfg, hp0, hble⟩
  | readChanCancel hb hc => exact ⟨hcfg, hp0, hble⟩
  | readChanExhausted hb hi => exact ⟨hcfg, hp0, hble⟩
  | closeQueue hb => exact ⟨hcfg, hp0, hble⟩
  | workerDequeue x rest l₁ l₂ hw hq => exact ⟨hcfg, hp0, hble⟩
  | workerIdlePass l₁ l₂ hw hcur => exact ⟨hcfg, hp0, hble⟩
  | workerClosedExit l₁ l₂ hw hclosed hq => exact ⟨hcfg, hp0, hble⟩
  | workerCancelExit l₁ l₂ hw hc => exact ⟨hcfg, hp0, hble⟩
  | workerDecrement l₁ l₂ hw =>
    refine ⟨hcfg, hp0, ?_⟩
    show b.cur - 1 + ctrlPending b ≤ cfg.maxWorkers
    omega
  | tickSpawn hc hcond =>
    have hpb : ctrlPending b = 0 := by
      unfold ctrlPending
      rw [hc]
    have hbd := tickAdditional_bounds b.cfg (b.queue.length : Int) b.cur hcond.2
    refine ⟨hcfg, ?_, ?_⟩
    · show 0 ≤ tickAdditional b.cfg (b.queue.length : Int) b.cur
      omega
    · show b.cur + tickAdditional b.cfg (b.queue.length : Int) b.cur ≤ cfg.maxWorkers
      rw [← hcfg]
      omega
  | tickAdd a hc =>
    have hpb : ctrlPending b = a := by
      unfold ctrlPending
      rw [hc]
    refine ⟨hcfg, le_refl 0, ?_⟩
    show b.cur + a + 0 ≤ cfg.maxWorkers
    omega

/-- C1 (amended): for configurations with `MinWorkers ≤ MaxWorkers`, the
current worker count never exceeds `MaxWorkers` in any reachable state, under
any interleaving of controller increments and worker self-exit decrements.
(The `MinWorkers` lower bound of the original claim is refuted by the
counterexample: two workers can concurrently pass the
`CurrentWorkers > MinWorkers` check before either decrements, and a
configuration with `minWorkers > maxWorkers` starts above the maximum.) -/
theorem c1_capacity_upper_bound {T : Type} (cfg : PoolConfig) (input : List T)
    (s : PoolState T) (hminmax : cfg.minWorkers ≤ cfg.maxWorkers)
    (h : Reachable (initState cfg input) s) :
    s.cur ≤ s.cfg.maxWorkers := by
  have key : s.cfg = cfg ∧ 0 ≤ ctrlPending s ∧
      s.cur + ctrlPending s ≤ cfg.maxWorkers := by
    induction h with
    | refl =>
      refine ⟨rfl, le_refl 0, ?_⟩
      show cfg.minWorkers + ctrlPending (initState cfg input) ≤ cfg.maxWorkers
      have h0 : ctrlPending (initState cfg input) = 0 := rfl
      omega
    | tail hr hs ih => exact upperBound_step cfg hs ih
  rw [key.1]
  omega

/-- Witness for C1 (amended) at the construction state of a pool with
`minWorkers = 1, maxWorkers = 2`. -/
theorem c1_capacity_upper_bound_witness :
    (initState (newAutoScaleWorkerPool 1 2 1 50 0) ([] : List Unit)).cur ≤
      (initState (newAutoScaleWorkerPool 1 2 1 50 0) ([] : List Unit)).cfg.maxWorkers :=
  c1_capacity_upper_bound (newAutoScaleWorkerPool 1 2 1 50 0) [] _ (by decide)
    Relation.ReflTransGen.refl

/-- Preservation of the close/shutdown correspondence by one step. -/
theorem closedIff_step {T : Type} {b c : PoolState T} (hs : Step b c)
    (ih : b.queueClosed = true ↔ b.bridge = .closedDone) :
    c.queueClosed = true ↔ c.bridge = .closedDone := by
  cases hs with
  | stop h => exact ih
  | readChanRelay x rest hb hi hq => exact ih
  | readChanAbandon x rest hb hi hc =>
    show b.queueClosed = true ↔ BPhase.returnedCancelled = BPhase.closedDone
    constructor
    · intro hq
      have hd := ih.mp hq
      rw [hb] at hd
      exact absurd hd (by decide)
    · intro hbad
      exact absurd hbad (by decide)
  | readChanCancel hb hc =>
    show b.queueClosed = true ↔ BPhase.returnedCancelled = BPhase.closedDone
    constructor
    · intro hq
      have hd := ih.mp hq
      rw [hb] at hd
      exact absurd hd (by decide)
    · intro hbad
      exact absurd hbad (by decide)
  | readChanExhausted hb hi =>
    show b.queueClosed = true ↔ BPhase.returnedExhausted = BPhase.closedDone
    constructor
    · intro hq
      have hd := ih.mp hq
      rw [hb] at hd
      exact absurd hd (by decide)
    · intro hbad
      exact absurd hbad (by decide)
  | closeQueue hb =>
    show true = true ↔ BPhase.closedDone = BPhase.closedDone
    exact ⟨fun _ => rfl, fun _ => rfl⟩
  | workerDequeue x rest l₁ l₂ hw hq => exact ih
  | workerIdlePass l₁ l₂ hw hcur => exact ih
  | workerClosedExit l₁ l₂ hw hclosed hq => exact ih
  | workerCancelExit l₁ l₂ hw hc => exact ih
  | workerDecrement l₁ l₂ hw => exact ih
  | tickSpawn hc hcond => exact ih
  | tickAdd a hc => exact ih

/-- C4 (amended): in every reachable state the queue is closed exactly when
`Start`'s shutdown path (line 108) has run, i.e. after `readChan` returned —
whether it returned because the source was exhausted OR because cancellation
fired first; `readChan` itself never closes the queue. -/
theorem c4_closed_iff_shutdown {T : Type} (cfg : PoolConfig) (input : List T)
    (s : PoolState T) (h : Reachable (initState cfg input) s) :
    s.queueClosed = true ↔ s.bridge = .closedDone := by
  induction h with
  | refl =>
    show false = true ↔ BPhase.relaying = BPhase.closedDone
    constructor
    · intro hq
      exact absurd hq (by decide)
    · intro hb
      exact absurd hb (by decide)
  | tail hr hs ih => exact closedIff_step hs ih

/-- Witness for C4 (amended) at the construction state. -/
theorem c4_closed_iff_shutdown_witness :
    ((initState (newAutoScaleWorkerPool 1 2 1 50 0) ([] : List Unit)).queueClosed = true ↔
      (initState (newAutoScaleWorkerPool 1 2 1 50 0) ([] : List Unit)).bridge = .closedDone) :=
  c4_closed_iff_shutdown (newAutoScaleWorkerPool 1 2 1 50 0) [] _
    Relation.ReflTransGen.refl

/-- Preservation of the live-count accounting identity by one step. -/
theorem liveAccounting_step {T : Type} {b c : PoolState T} (hs : Step b c)
    (ih : b.cur + ctrlPending b = liveCount b) :
    c.cur + ctrlPending c = liveCount c := by
  cases hs with
  | stop h => exact ih
  | readChanRelay x rest hb hi hq => exact ih
  | readChanAbandon x rest hb hi hc => exact ih
  | readChanCancel hb hc => exact ih
  | readChanExhausted hb hi => exact ih
  | closeQueue hb => exact ih
  | workerDequeue x rest l₁ l₂ hw hq => exact ih
  | workerIdlePass l₁ l₂ hw hcur =>
    show b.cur + ctrlPending b = liveCount { b with workers := l₁ ++ .passedCheck :: l₂ }
    unfold liveCount at ih ⊢
    rw [hw] at ih
    simp only [List.map_append, List.map_cons, List.sum_append, List.sum_cons,
      phaseWeight] at ih ⊢
    omega
  | workerClosedExit l₁ l₂ hw hclosed hq =>
    show b.cur + ctrlPending b = liveCount { b with workers := l₁ ++ .passedCheck :: l₂ }
    unfold liveCount at ih ⊢
    rw [hw] at ih
    simp only [List.map_append, List.map_cons, List.sum_append, List.sum_cons,
      phaseWeight] at ih ⊢
    omega
  | workerCancelExit l₁ l₂ hw hc =>
    show b.cur + ctrlPending b = liveCount { b with workers := l₁ ++ .passedCheck :: l₂ }
    unfold liveCount at ih ⊢
    rw [hw] at ih
    simp only [List.map_append, List.map_cons, List.sum_append, List.sum_cons,
      phaseWeight] at ih ⊢
    omega
  | workerDecrement l₁ l₂ hw =>
    show b.cur - 1 + ctrlPending b = liveCount { b with workers := l₁ ++ .exited :: l₂ }
    unfold liveCount at ih ⊢
    rw [hw] at ih
    simp only [List.map_append, List.map_cons, List.sum_append, List.sum_cons,
      phaseWeight] at ih ⊢
    omega
  | tickSpawn hc hcond =>
    have hpb : ctrlPending b = 0 := by
      unfold ctrlPending
      rw [hc]
    have hbd := tickAdditional_bounds b.cfg (b.queue.length : Int) b.cur hcond.2
    show b.cur + tickAdditional b.cfg (b.queue.length : Int) b.cur =
      liveCount { b with
        workers := b.workers ++
          List.replicate (tickAdditional b.cfg (b.queue.length : Int) b.cur).toNat .running }
    unfold liveCount at ih ⊢
    simp only [List.map_append, List.map_replicate, phaseWeight,
      List.sum_append, List.sum_replicate, smul_eq_mul, nsmul_eq_mul, mul_one] at ih ⊢
    omega
  | tickAdd a hc =>
    have hpb : ctrlPending b = a := by
      unfold ctrlPending
      rw [hc]
    show b.cur + a + 0 = liveCount { b with cur := b.cur + a, ctrl := .cIdle }
    have hlc : liveCount { b with cur := b.cur + a, ctrl := CPhase.cIdle } = liveCount b := rfl
    omega

/-- C6 (amended): the controller spawns the new workers (lines 93-97) BEFORE
the `atomic.AddInt32` (line 98), so the bookkeeping identity that holds in
every reachable state is `CurrentWorkers + pendingAdd = live workers`:
while the add is pending (`pendingAdd > 0`), the spawned workers are live but
`CurrentWorkers` does not yet include them, so a spawned worker CAN observe a
stale undercount (see the counterexample). -/
theorem c6_live_accounting {T : Type} (cfg : PoolConfig) (input : List T)
    (s : PoolState T) (hmin : 0 ≤ cfg.minWorkers)
    (h : Reachable (initState cfg input) s) :
    s.cur + ctrlPending s = liveCount s := by
  induction h with
  | refl =>
    show cfg.minWorkers + ctrlPending (initState cfg input) = liveCount (initState cfg input)
    have h1 : ctrlPending (initState cfg input) = 0 := rfl
    have h2 : liveCount (initState cfg input) = (cfg.minWorkers.toNat : Int) := by
      unfold liveCount initState
      simp [List.map_replicate, phaseWeight, List.sum_replicate]
    omega
  | tail hr hs ih => exact liveAccounting_step hs ih

/-- Witness for C6 (amended) at the construction state. -/
theorem c6_live_accounting_witness :
    (initState (newAutoScaleWorkerPool 1 2 1 50 0) ([] : List Unit)).cur +
      ctrlPending (initState (newAutoScaleWorkerPool 1 2 1 50 0) ([] : List Unit)) =
      liveCount (initState (newAutoScaleWorkerPool 1 2 1 50 0) ([] : List Unit)) :=
  c6_live_accounting (newAutoScaleWorkerPool 1 2 1 50 0) [] _ (by decide)
    Relation.ReflTransGen.refl

/-! ## Concrete interleavings (counterexamples for C1, C4, C6; failing run
for C7) -/

/-- The configuration produced by
`NewAutoScaleWorkerPool(ctx, 1, 2, 1, 50, 0, ...)`:
`minWorkers=1, maxWorkers=2, queueSize=1, threshold=50%` (so
`thresholdCount = 0` and every tick scales while below the maximum). -/
def cfgSmall : PoolConfig := newAutoScaleWorkerPool 1 2 1 50 0

/-- State reached after: one controller tick spawns a second worker and adds
to the count; then BOTH workers' idle timers fire, both pass the
`CurrentWorkers > MinWorkers` check (both loads return 2 > 1) before either
deferred decrement runs, and then both decrements run. -/
def raceFinal : PoolState Unit :=
  { cfg := cfgSmall, input := [], queue := [], queueClosed := false,
    cancelled := false, workers := [.exited, .exited], cur := 0,
    processed := 0, abandoned := 0, bridge := .relaying, ctrl := .cIdle }

/-- C1 counterexample: (a) an interleaving of two concurrent idle self-exits
drives `CurrentWorkers` to `0`, strictly below `MinWorkers = 1`; (b) with
`minWorkers=5, maxWorkers=2` the pool starts at `CurrentWorkers = 5`, above
`MaxWorkers = 2`.  Both bounds of the claim fail. -/
theorem c1_counterexample_below_min :
    (Reachable (initState cfgSmall ([] : List Unit)) raceFinal ∧
      raceFinal.cur < raceFinal.cfg.minWorkers) ∧
    ((newAutoScaleWorkerPool 5 2 10 50 0).maxWorkers <
      (initState (newAutoScaleWorkerPool 5 2 10 50 0) ([] : List Unit)).cur) := by
  refine ⟨⟨?_, by decide⟩, by decide⟩
  have ha : tickAdditional cfgSmall 0 1 = 1 :=
    tickAdditional_eval _ _ _ _ (by decide) (by decide)
  apply Relation.ReflTransGen.head
    (Step.tickSpawnEval (initState cfgSmall ([] : List Unit)) 1 rfl (by decide) ha)
  apply Relation.ReflTransGen.head (Step.tickAdd _ 1 rfl)
  apply Relation.ReflTransGen.head (Step.workerIdlePass _ [] [.running] rfl (by decide))
  apply Relation.ReflTransGen.head (Step.workerIdlePass _ [.passedCheck] [] rfl (by decide))
  apply Relation.ReflTransGen.head (Step.workerDecrement _ [] [.passedCheck] rfl)
  apply Relation.ReflTransGen.head (Step.workerDecrement _ [.exited] [] rfl)
  exact Relation.ReflTransGen.refl

/-- State right after the controller's spawn loop (lines 93-97), before the
`atomic.AddInt32` of line 98: the second worker is already running but
`CurrentWorkers` is still 1. -/
def spawnMid : PoolState Unit :=
  { cfg := cfgSmall, input := [], queue := [], queueClosed := false,
    cancelled := false, workers := [.running, .running], cur := 1,
    processed := 0, abandoned := 0, bridge := .relaying, ctrl := .cPending 1 }

/-- C6 counterexample: the count is added AFTER spawning, not before or
atomically with it: in the reachable state `spawnMid` two workers are live
while `CurrentWorkers = 1`, so the freshly spawned worker's atomic load
observes a stale undercount. -/
theorem c6_counterexample_stale_undercount :
    Reachable (initState cfgSmall ([] : List Unit)) spawnMid ∧
    liveCount spawnMid = 2 ∧ spawnMid.cur = 1 := by
  refine ⟨?_, by decide, rfl⟩
  have ha : tickAdditional cfgSmall 0 1 = 1 :=
    tickAdditional_eval _ _ _ _ (by decide) (by decide)
  apply Relation.ReflTransGen.head
    (Step.tickSpawnEval (initState cfgSmall ([] : List Unit)) 1 rfl (by decide) ha)
  exact Relation.ReflTransGen.refl

/-- State reached when `Stop` fires before the source (still holding one
item) is exhausted: `readChan` returns through its cancellation arm and
`Start` line 108 closes the queue anyway. -/
def cancelClosed : PoolState Unit :=
  { cfg := cfgSmall, input := [()], queue := [], queueClosed := true,
    cancelled := true, workers := [.running], cur := 1,
    processed := 0, abandoned := 0, bridge := .closedDone, ctrl := .cIdle }

/-- C4 counterexample: cancellation occurs first (the source still has an
item, so it was never exhausted), the Input Bridge exits through its
cancellation arm — and the queue still ends up closed, because
`close(pool.Queue)` at line 108 runs unconditionally after `readChan`
returns.  This refutes "never closed when cancellation occurs first". -/
theorem c4_counterexample_closed_after_cancel :
    Reachable (initState cfgSmall [()]) cancelClosed ∧
    cancelClosed.cancelled = true ∧ cancelClosed.queueClosed = true ∧
    cancelClosed.input ≠ [] := by
  refine ⟨?_, rfl, rfl, by decide⟩
  apply Relation.ReflTransGen.head (Step.stop _ rfl)
  apply Relation.ReflTransGen.head (Step.readChanCancel _ rfl rfl)
  apply Relation.ReflTransGen.head (Step.closeQueue _ (Or.inr rfl))
  exact Relation.ReflTransGen.refl

/-- Final state of the C7 failing run: the single input item was relayed into
the queue and the queue closed after exhaustion (no cancellation), but both
workers idle-exited through the double-pass race while the item was still
queued: every worker has exited, so `WG.Wait` (Join) returns with the item
unprocessed. -/
def strandedFinal : PoolState Nat :=
  { cfg := cfgSmall, input := [], queue := [42], queueClosed := true,
    cancelled := false, workers := [.exited, .exited], cur := 0,
    processed := 0, abandoned := 0, bridge := .closedDone, ctrl := .cIdle }

/-- C7 failing run: the source produces `N = 1` item and is exhausted, no
stop is ever requested, yet there is an interleaving (controller scales to 2,
both workers' idle timers fire while the item sits in the queue — legal,
since `select` picks among ready arms — and both pass the
`CurrentWorkers > MinWorkers` check before either decrements) after which all
workers have exited and Join returns with `0` work-function invocations
instead of `1`. -/
theorem c7_join_returns_with_item_stranded :
    Reachable (initState cfgSmall [42]) strandedFinal ∧
    (initState cfgSmall [42]).input.length = 1 ∧
    allWorkersExited strandedFinal ∧ strandedFinal.bridge = .closedDone ∧
    strandedFinal.cancelled = false ∧ strandedFinal.processed = 0 ∧
    strandedFinal.queue.length = 1 := by
  refine ⟨?_, rfl, by decide, rfl, rfl, rfl, rfl⟩
  have ha : tickAdditional cfgSmall 0 1 = 1 :=
    tickAdditional_eval _ _ _ _ (by decide) (by decide)
  apply Relation.ReflTransGen.head
    (Step.tickSpawnEval (initState cfgSmall [42]) 1 rfl (by decide) ha)
  apply Relation.ReflTransGen.head (Step.tickAdd _ 1 rfl)
  apply Relation.ReflTransGen.head (Step.readChanRelay _ 42 [] rfl rfl (by decide))
  apply Relation.ReflTransGen.head (Step.readChanExhausted _ rfl rfl)
  apply Relation.ReflTransGen.head (Step.closeQueue _ (Or.inl rfl))
  apply Relation.ReflTransGen.head (Step.workerIdlePass _ [] [.running] rfl (by decide))
  apply Relation.ReflTransGen.head (Step.workerIdlePass _ [.passedCheck] [] rfl (by decide))
  apply Relation.ReflTransGen.head (Step.workerDecrement _ [] [.passedCheck] rfl)
  apply Relation.ReflTransGen.head (Step.workerDecrement _ [.exited] [] rfl)
  exact Relation.ReflTransGen.refl

/-! ## Worker idle timer vs execution time (claim C5) -/

/-- Logical clock of one worker: `now` is the current time and `deadline`
the instant at which the idle timer will fire (both in nanoseconds). -/
structure WorkerClock where
  now : Nat
  deadline : Nat
deriving DecidableEq

/-- Lines 150-156 of `worker`: on receiving a payload the worker stops and
drains the timer, resets it — `timer.Reset(pool.IdleTimeout)` happens BEFORE
`pool.WorkFunc(pool.Ctx, payload)` is invoked — and then the work function
runs for `d` nanoseconds. -/
def workerReceiveExec (idleTimeout : Nat) (s : WorkerClock) (d : Nat) : WorkerClock :=
  { now := s.now + d, deadline := s.now + idleTimeout }

/-- The `timer.C` select arm is ready: the timer has fired. -/
def timerFired (s : WorkerClock) : Prop := s.deadline ≤ s.now

instance (s : WorkerClock) : Decidable (timerFired s) :=
  inferInstanceAs (Decidable (_ ≤ _))

/-- C5 counterexample: with the default idle timeout (5s) and a work-function
execution of 5s + 1ns, the idle timer has already fired by the time the
worker returns to its `select`: the idle-timer-fired transition IS
immediately available after an execution longer than the idle timeout,
because the timer is reset before — not after — the execution. -/
theorem c5_counterexample_timer_fires_during_exec :
    timerFired (workerReceiveExec 5000000000 { now := 0, deadline := 5000000000 }
      5000000001) ∧
    5000000000 < 5000000001 := by
  exact ⟨by decide, by decide⟩

/-- C5 (amended): the idle timer is reset at the moment an item is received,
before the work function runs, so the timer keeps counting during execution:
after an execution of duration `d` the idle-timer transition is immediately
available if and only if `d` is at least the idle timeout. -/
theorem c5_timer_reset_before_exec (idleTimeout d : Nat) (s : WorkerClock) :
    timerFired (workerReceiveExec idleTimeout s d) ↔ idleTimeout ≤ d := by
  show s.now + idleTimeout ≤ s.now + d ↔ idleTimeout ≤ d
  omega

end SUtils
